import Mathlib

/-!
# Verification of the klein-rs 3D projective geometric algebra kernel

This file gives a shallow embedding of the parts of the `klein-rs` library
(Clifford algebra Cl(3,0,1) over 4-lane single-precision SIMD registers)
that the specification's claims are about, and proves or refutes each claim.

Two lane models are used, each faithful to the SSE source at the level the
claim requires:

* `Q4` — a 4-lane register with exact rational lanes.  Used for kernels
  that perform only ring operations and comparisons (exterior products,
  duals, the translator sandwich, approximate equality, scalar division).
* `R4` — a 4-lane register with real lanes, where the Newton-Raphson
  refined reciprocal and reciprocal square root of the source are
  idealized to the exact reciprocal and reciprocal square root.  Used for
  the rotor inverse, the rotor sandwich, and the exp/log maps.
* `F32` — a sign/magnitude/NaN model of an IEEE-754 single lane, used only
  for the exact-equality operator whose claim is about bit patterns
  versus the numeric comparison performed by `_mm_cmpeq_ps`.

Lane conventions follow the source (`src/arch/mod.rs`): `_mm_set_ps(x, y,
z, w)` puts `w` in lane 0 and `x` in lane 3; the partition layouts are
p0 = (e0, e1, e2, e3), p1 = (1, e23, e31, e12), p2 = (e0123, e01, e02,
e03), p3 = (e123, e032, e013, e021).
-/

namespace Klein

/-- A 4-lane SIMD register with exact rational lanes (model of `f32x4`
from `src/arch/mod.rs` for the kernels that only use ring operations
and comparisons). Lane 0 is the low lane (`_mm_set_ps` last argument). -/
structure Q4 where
  l0 : ℚ
  l1 : ℚ
  l2 : ℚ
  l3 : ℚ
deriving DecidableEq, Repr

namespace Q4

/-- `_mm_set_ps(x, y, z, w)`: `w` lands in lane 0, `x` in lane 3. -/
def set (x y z w : ℚ) : Q4 := ⟨w, z, y, x⟩

/-- `_mm_setzero_ps()`. -/
def zero : Q4 := ⟨0, 0, 0, 0⟩

/-- `_mm_set1_ps(s)`: broadcast. -/
def all (s : ℚ) : Q4 := ⟨s, s, s, s⟩

/-- `_mm_add_ps`. -/
def add (a b : Q4) : Q4 := ⟨a.l0 + b.l0, a.l1 + b.l1, a.l2 + b.l2, a.l3 + b.l3⟩

/-- `_mm_sub_ps`. -/
def sub (a b : Q4) : Q4 := ⟨a.l0 - b.l0, a.l1 - b.l1, a.l2 - b.l2, a.l3 - b.l3⟩

/-- `_mm_mul_ps`. -/
def mul (a b : Q4) : Q4 := ⟨a.l0 * b.l0, a.l1 * b.l1, a.l2 * b.l2, a.l3 * b.l3⟩

/-- `f32x4::Mul<f32>`: `self * Self::all(s)` (`src/arch/mod.rs:70`). -/
def mulScalar (a : Q4) (s : ℚ) : Q4 := a.mul (all s)

/-- `_mm_andnot_ps(_mm_set1_ps(-0.0), v)`: clearing the sign bit of every
lane is taking the absolute value lane-wise. -/
def absLanes (v : Q4) : Q4 := ⟨|v.l0|, |v.l1|, |v.l2|, |v.l3|⟩

/-- `_mm_movemask_ps(_mm_cmplt_ps(v, _mm_set1_ps(e))) == 0b1111`:
true exactly when every lane of `v` is `< e`. -/
def allLt (v : Q4) (e : ℚ) : Bool :=
  decide (v.l0 < e) && decide (v.l1 < e) && decide (v.l2 < e) && decide (v.l3 < e)

/-- `f32x4::approx_eq` (`src/arch/mod.rs:201-210`).  The source compares
the lane-wise absolute difference against `epsilon` and then returns
`_mm_movemask_ps(cmp) != 0b1111`, i.e. the NEGATION of "all four lanes
are within epsilon". -/
def approx_eq (a b : Q4) (epsilon : ℚ) : Bool :=
  !(allLt (absLanes (a.sub b)) epsilon)

end Q4

/-! ## Entity types (rational-lane model)

Each entity stores the same partitions as the Rust structs
(`plane.rs`, `point.rs`, `line.rs`, `rotor.rs`, `translator.rs`,
`direction.rs`, `dual.rs`). -/

/-- `Plane { p0 }`: lanes (e0, e1, e2, e3). -/
structure Plane where
  p0 : Q4
deriving DecidableEq, Repr

/-- `Point { p3 }`: lanes (e123, e032, e013, e021). -/
structure Point where
  p3 : Q4
deriving DecidableEq, Repr

/-- `Direction { p3 }`: a point at infinity, lane 0 zero by invariant. -/
structure Direction where
  p3 : Q4
deriving DecidableEq, Repr

/-- `Line { p1, p2 }`: p1 = (1, e23, e31, e12), p2 = (e0123, e01, e02, e03). -/
structure Line where
  p1 : Q4
  p2 : Q4
deriving DecidableEq, Repr

/-- `Branch { p1 }`: a line through the origin. -/
structure Branch where
  p1 : Q4
deriving DecidableEq, Repr

/-- `IdealLine { p2 }`: a line at infinity. -/
structure IdealLine where
  p2 : Q4
deriving DecidableEq, Repr

/-- `Rotor { p1 }` with rational lanes (used for `approx_eq` only). -/
structure RotorQ where
  p1 : Q4
deriving DecidableEq, Repr

/-- `Translator { p2 }`. -/
structure Translator where
  p2 : Q4
deriving DecidableEq, Repr

/-- `Dual { p, q }` (`dual.rs`): scalar `p` plus pseudoscalar `q`. -/
structure Dual where
  p : ℚ
  q : ℚ
deriving DecidableEq, Repr

/-- `Plane::new(a, b, c, d)` = `_mm_set_ps(c, b, a, d)` (`plane.rs:21`). -/
def Plane.new (a b c d : ℚ) : Plane := ⟨Q4.set c b a d⟩

/-- `Point::new(x, y, z)` = `f32x4::new(z, y, x, 1.0)` (`point.rs:31`),
i.e. lanes (1, x, y, z) with the homogeneous e123 lane set to 1. -/
def Point.new (x y z : ℚ) : Point := ⟨Q4.set z y x 1⟩

/-- `Plane::plane_approx_eq` (`plane.rs:97-106`): the same inverted
movemask comparison as `f32x4::approx_eq`. -/
def Plane.plane_approx_eq (a b : Plane) (epsilon : ℚ) : Bool :=
  !(Q4.allLt (Q4.absLanes (a.p0.sub b.p0)) epsilon)

/-- `Rotor::rotor_approx_eq` (`rotor.rs:146-155`): identical pattern on p1. -/
def RotorQ.rotor_approx_eq (a b : RotorQ) (epsilon : ℚ) : Bool :=
  !(Q4.allLt (Q4.absLanes (a.p1.sub b.p1)) epsilon)

/-! ## Dual operator and join (`join.rs`) -/

/-- `impl Not for Plane` (`join.rs:58`). -/
def Plane.dual (a : Plane) : Point := ⟨a.p0⟩

/-- `impl Not for Point` (`join.rs:59`). -/
def Point.dual (a : Point) : Plane := ⟨a.p3⟩

/-- `impl Not for Line` (`join.rs:60`): swaps p1 and p2. -/
def Line.dual (a : Line) : Line := ⟨a.p2, a.p1⟩

/-- `impl Not for Branch` (`join.rs:61`). -/
def Branch.dual (a : Branch) : IdealLine := ⟨a.p1⟩

/-- `impl Not for IdealLine` (`join.rs:62`). -/
def IdealLine.dual (a : IdealLine) : Branch := ⟨a.p2⟩

/-- `impl Not for Dual` (`join.rs:63`): swaps p and q. -/
def Dual.dual (a : Dual) : Dual := ⟨a.q, a.p⟩

/-- `ext00` (`src/arch/exterior_product.rs:12-37`; the identical live copy
is inlined in `impl BitXor<Plane> for Plane`, `multivector_ep.rs:47-69`),
the exterior product of two p0 registers, transcribed shuffle by shuffle.
`swizzle!(v, 1, 3, 2, 0)` places source lane 0 in lane 0, lane 2 in lane 1,
lane 3 in lane 2 and lane 1 in lane 3. -/
def ext00 (a b : Q4) : Q4 × Q4 :=
  -- p1 = a * b.xzwy
  let m1 : Q4 := a.mul ⟨b.l0, b.l2, b.l3, b.l1⟩
  -- p1 -= a.xzwy * b
  let d : Q4 := m1.sub (Q4.mul ⟨a.l0, a.l2, a.l3, a.l1⟩ b)
  -- p1 = (p1).xzwy
  let p1 : Q4 := ⟨d.l0, d.l2, d.l3, d.l1⟩
  -- p2 = a.xxxx * b - a * b.xxxx
  let p2 : Q4 := (Q4.mul ⟨a.l0, a.l0, a.l0, a.l0⟩ b).sub (a.mul ⟨b.l0, b.l0, b.l0, b.l0⟩)
  (p1, p2)

/-- `impl BitXor<Plane> for Plane` (`multivector_ep.rs:47-69`):
`Line::from((p1, p2))` computed by `ext00`. -/
def Plane.meet (a b : Plane) : Line :=
  ⟨(ext00 a.p0 b.p0).1, (ext00 a.p0 b.p0).2⟩

/-- `impl BitAnd<Point> for Point` (`join.rs:80`): `!(!a ^ !b)`. -/
def Point.join (a b : Point) : Line :=
  (Plane.meet a.dual b.dual).dual

/-- Accessors generated by `derive_attrs!` (`macros.rs:273-276`):
`Line::e23` is lane 1 of p1. -/
def Line.e23 (l : Line) : ℚ := l.p1.l1

/-- `Line::e31`: lane 2 of p1. -/
def Line.e31 (l : Line) : ℚ := l.p1.l2

/-- `Line::e12`: lane 3 of p1. -/
def Line.e12 (l : Line) : ℚ := l.p1.l3

/-- `Line::e01`: lane 1 of p2. -/
def Line.e01 (l : Line) : ℚ := l.p2.l1

/-- `Line::e02`: lane 2 of p2. -/
def Line.e02 (l : Line) : ℚ := l.p2.l2

/-- `Line::e03`: lane 3 of p2. -/
def Line.e03 (l : Line) : ℚ := l.p2.l3

/-! ## Translator sandwich (`sw32`, `src/arch/sandwitch.rs:224-233`) -/

/-- `sw32(a, b)`: apply a translator (p2 register `b`) to a point
(p3 register `a`).  `tmp = a.xxxx * b`, then `tmp *= (0, -2, -2, -2)`,
then `a + tmp`. -/
def sw32 (a b : Q4) : Q4 :=
  let tmp : Q4 := Q4.mul ⟨a.l0, a.l0, a.l0, a.l0⟩ b
  let tmp : Q4 := Q4.mul ⟨0, -2, -2, -2⟩ tmp
  a.add tmp

/-- `Translator::conj_point` (`translator.rs:109-111`):
`Point::from(sw32(p.p3, self.p2))`. -/
def Translator.conj_point (t : Translator) (p : Point) : Point :=
  ⟨sw32 p.p3 t.p2⟩

/-! ## Scalar division for Direction (`macros.rs:211-217`)

`derive_f32x4!` generates `Div<f32>` with body `self.$field * s` — the
lanes are multiplied by `s`, no reciprocal is ever taken — and is applied
to `Direction` at `macros.rs:250`. -/

/-- `impl Mul<f32> for Direction` from `derive_f32x4!` (`macros.rs:203-209`). -/
def Direction.mulScalar (d : Direction) (s : ℚ) : Direction :=
  ⟨d.p3.mulScalar s⟩

/-- `impl Div<f32> for Direction` from `derive_f32x4!` (`macros.rs:211-217`):
the body is `self.p3 * s`, identical to the multiplication body. -/
def Direction.divScalar (d : Direction) (s : ℚ) : Direction :=
  ⟨d.p3.mulScalar s⟩

/-! ## Bit-level lane model for the exact-equality operator

`plane_eq` (`plane.rs:93-95`), `line_eq` (`line.rs:291-298`),
`motor_eq` (`motor.rs:247-254`) and `f32x4::bit_eq` (`src/arch/mod.rs:197-199`)
are all implemented with `_mm_cmpeq_ps`, the IEEE-754 numeric comparison.
To settle a claim about bit patterns (signed zeros, NaN) the lane model
must distinguish the sign of zero and NaN from ordinary values, so a lane
is modelled as a sign bit, a magnitude and a NaN flag; two lanes have
the same bit pattern exactly when the three fields coincide. -/

/-- Model of an IEEE-754 single-precision lane: sign bit, magnitude,
NaN flag (NaN payload bits are abstracted into `mag`).  Structural
equality of this type models bit-pattern equality. -/
structure F32 where
  sign : Bool
  mag : ℚ
  nan : Bool
deriving DecidableEq, Repr

/-- The numeric value of a non-NaN lane: `-mag` when the sign bit is set.
Both `+0.0` and `-0.0` have value `0`. -/
def F32.toVal (x : F32) : ℚ := if x.sign then -x.mag else x.mag

/-- `_mm_cmpeq_ps` on one lane: an ordered comparison, false whenever
either operand is NaN, and true on `+0.0 == -0.0`. -/
def F32.cmpeq (a b : F32) : Bool :=
  !a.nan && !b.nan && decide (a.toVal = b.toVal)

/-- A 4-lane register of IEEE-modelled lanes. -/
structure F32x4 where
  l0 : F32
  l1 : F32
  l2 : F32
  l3 : F32
deriving DecidableEq, Repr

/-- `f32x4::bit_eq` (`src/arch/mod.rs:197-199`):
`_mm_movemask_ps(_mm_cmpeq_ps(a, b)) == 0b1111`. -/
def F32x4.bit_eq (a b : F32x4) : Bool :=
  F32.cmpeq a.l0 b.l0 && F32.cmpeq a.l1 b.l1 &&
    F32.cmpeq a.l2 b.l2 && F32.cmpeq a.l3 b.l3

/-- `Plane` with bit-level lanes, for the exact-equality claim. -/
structure PlaneF where
  p0 : F32x4
deriving DecidableEq, Repr

/-- `Plane::plane_eq` (`plane.rs:93-95`). -/
def PlaneF.plane_eq (a b : PlaneF) : Bool := F32x4.bit_eq a.p0 b.p0

/-- `Line` with bit-level lanes. -/
structure LineF where
  p1 : F32x4
  p2 : F32x4
deriving DecidableEq, Repr

/-- `Line::line_eq` (`line.rs:291-298`): the two lane-wise `cmpeq` masks
are and-ed and the movemask must be `0xf`, i.e. every one of the eight
lanes must compare equal. -/
def LineF.line_eq (a b : LineF) : Bool :=
  (F32.cmpeq a.p1.l0 b.p1.l0 && F32.cmpeq a.p2.l0 b.p2.l0) &&
    (F32.cmpeq a.p1.l1 b.p1.l1 && F32.cmpeq a.p2.l1 b.p2.l1) &&
    (F32.cmpeq a.p1.l2 b.p1.l2 && F32.cmpeq a.p2.l2 b.p2.l2) &&
    (F32.cmpeq a.p1.l3 b.p1.l3 && F32.cmpeq a.p2.l3 b.p2.l3)

/-- `Motor` with bit-level lanes. -/
structure MotorF where
  p1 : F32x4
  p2 : F32x4
deriving DecidableEq, Repr

/-- `Motor::motor_eq` (`motor.rs:247-254`): same pattern as `line_eq`. -/
def MotorF.motor_eq (a b : MotorF) : Bool :=
  (F32.cmpeq a.p1.l0 b.p1.l0 && F32.cmpeq a.p2.l0 b.p2.l0) &&
    (F32.cmpeq a.p1.l1 b.p1.l1 && F32.cmpeq a.p2.l1 b.p2.l1) &&
    (F32.cmpeq a.p1.l2 b.p1.l2 && F32.cmpeq a.p2.l2 b.p2.l2) &&
    (F32.cmpeq a.p1.l3 b.p1.l3 && F32.cmpeq a.p2.l3 b.p2.l3)

/-- The `+0.0` lane bit pattern. -/
def F32.pz : F32 := ⟨false, 0, false⟩

/-- The `-0.0` lane bit pattern. -/
def F32.mz : F32 := ⟨true, 0, false⟩

/-! ## Real-lane model

The kernels below use the refined reciprocal (`rcp_nr1`), refined
reciprocal square root (`rsqrt_nr1`) and libm transcendentals
(`sin_cos`, `atan2`).  In this model the lanes are exact reals and the
approximate operations are idealized to the exact reciprocal, the exact
reciprocal square root, and the exact trigonometric functions; Lean's
conventions `x⁻¹ = 0` for `x = 0` and `Real.sqrt x = 0` for `x ≤ 0`
stand in for the IEEE non-finite results that the source propagates on
the same degenerate inputs. -/

/-- A 4-lane register with exact real lanes. -/
structure R4 where
  l0 : ℝ
  l1 : ℝ
  l2 : ℝ
  l3 : ℝ

namespace R4

/-- `_mm_set1_ps(s)`. -/
noncomputable def all (s : ℝ) : R4 := ⟨s, s, s, s⟩

/-- `_mm_set_ss(s)`: scalar in lane 0, other lanes zero. -/
noncomputable def set0 (s : ℝ) : R4 := ⟨s, 0, 0, 0⟩

/-- `_mm_add_ps`. -/
noncomputable def add (a b : R4) : R4 :=
  ⟨a.l0 + b.l0, a.l1 + b.l1, a.l2 + b.l2, a.l3 + b.l3⟩

/-- `_mm_sub_ps`. -/
noncomputable def sub (a b : R4) : R4 :=
  ⟨a.l0 - b.l0, a.l1 - b.l1, a.l2 - b.l2, a.l3 - b.l3⟩

/-- `_mm_mul_ps`. -/
noncomputable def mul (a b : R4) : R4 :=
  ⟨a.l0 * b.l0, a.l1 * b.l1, a.l2 * b.l2, a.l3 * b.l3⟩

/-- `_mm_xor_ps` with the mask `_mm_set_ps(-0.0, -0.0, -0.0, 0.0)`:
negates lanes 1, 2, 3 and leaves lane 0 untouched. -/
noncomputable def flipHi (a : R4) : R4 := ⟨a.l0, -a.l1, -a.l2, -a.l3⟩

/-- `_mm_xor_ps` with `_mm_set_ss(-0.0)`: negates lane 0 only. -/
noncomputable def flip0 (a : R4) : R4 := ⟨-a.l0, a.l1, a.l2, a.l3⟩

/-- `hi_dp(a, b)` (`src/arch/sse.rs`): the dot product of lanes 1-3 in
lane 0, upper lanes zeroed. -/
noncomputable def hi_dp (a b : R4) : R4 :=
  ⟨a.l1 * b.l1 + a.l2 * b.l2 + a.l3 * b.l3, 0, 0, 0⟩

/-- `hi_dp_bc(a, b)`: the dot product of lanes 1-3 broadcast to all lanes. -/
noncomputable def hi_dp_bc (a b : R4) : R4 :=
  all (a.l1 * b.l1 + a.l2 * b.l2 + a.l3 * b.l3)

/-- `dp(a, b)`: the full 4-lane dot product in lane 0, upper lanes zero. -/
noncomputable def dp (a b : R4) : R4 :=
  ⟨a.l0 * b.l0 + a.l1 * b.l1 + a.l2 * b.l2 + a.l3 * b.l3, 0, 0, 0⟩

/-- `dp_bc(a, b)`: the full dot product broadcast to all lanes. -/
noncomputable def dp_bc (a b : R4) : R4 :=
  all (a.l0 * b.l0 + a.l1 * b.l1 + a.l2 * b.l2 + a.l3 * b.l3)

/-- `rcp_nr1` (`src/arch/sse.rs:42-52`), the reciprocal with one
Newton-Raphson refinement (~22 bits), idealized to the exact lane-wise
reciprocal. -/
noncomputable def rcp_nr1 (a : R4) : R4 := ⟨a.l0⁻¹, a.l1⁻¹, a.l2⁻¹, a.l3⁻¹⟩

/-- `rsqrt_nr1` (`src/arch/sse.rs:56-71`), the reciprocal square root with
one Newton-Raphson refinement, idealized to the exact lane-wise
`1 / sqrt`. -/
noncomputable def rsqrt_nr1 (a : R4) : R4 :=
  ⟨(Real.sqrt a.l0)⁻¹, (Real.sqrt a.l1)⁻¹, (Real.sqrt a.l2)⁻¹, (Real.sqrt a.l3)⁻¹⟩

end R4

/-- `f32::atan2(y, x)`, modelled as the argument of the complex number
`x + y i` (range `(-π, π]`; the IEEE signed-zero distinctions of the libm
intrinsic are not modelled). -/
noncomputable def atan2 (y x : ℝ) : ℝ := Complex.arg ⟨x, y⟩

/-- The branch threshold of the motor logarithm: the source compares
`p_scalar.abs()` against the literal `1e-6` (`exp_log.rs:246`). -/
noncomputable def logEps : ℝ := 1 / 1000000

/-! ## Rotor (real-lane) : constructor, inverse, sandwich -/

/-- `Rotor { p1 }` with real lanes. -/
structure Rotor where
  p1 : R4

/-- `Rotor::new(ang_rad, x, y, z)` (`rotor.rs:56-73`): note the source
computes `inv_norm = -1.0 / norm`, so the stored bivector axis is the
NEGATION of the normalized `(x, y, z)` scaled by `sin(ang/2)`; lane 0 is
`cos(ang/2)`. -/
noncomputable def Rotor.new (ang_rad x y z : ℝ) : Rotor :=
  let norm := Real.sqrt (x * x + y * y + z * z)
  let inv_norm := -1 / norm
  let half := 0.5 * ang_rad
  let sin := Real.sin half
  let cos := Real.cos half
  let scale := sin * inv_norm
  -- p1 = _mm_set_ps(z, y, x, cos) * _mm_set_ps(scale, scale, scale, 1.0)
  ⟨⟨cos * 1, x * scale, y * scale, z * scale⟩⟩

/-- `Rotor::invert` (`rotor.rs:106-113`): the source computes
`inv_norm = rsqrt_nr1(hi_dp_bc(p1, p1))` — the HIGH-lane (bivector-only)
squared norm, not the full `dp_bc` used by `Rotor::normalize` — then
multiplies twice by it and flips the sign of the three non-scalar lanes. -/
noncomputable def Rotor.inverse (r : Rotor) : Rotor :=
  let inv_norm := R4.rsqrt_nr1 (R4.hi_dp_bc r.p1 r.p1)
  let p1 := (r.p1.mul inv_norm).mul inv_norm
  ⟨p1.flipHi⟩

/-- `gp11` (`src/arch/geometric_product.rs:131-156`; identical live copy
at `multivector_gp.rs:363-387`): geometric product of two p1 registers
(rotor · rotor), transcribed shuffle by shuffle. -/
noncomputable def gp11 (a b : R4) : R4 :=
  -- p1 = a.xxxx * b
  let p1 := R4.mul ⟨a.l0, a.l0, a.l0, a.l0⟩ b
  -- p1 -= swizzle!(a, 1, 3, 2, 1) * swizzle!(b, 2, 1, 3, 1)
  let p1 := p1.sub (R4.mul ⟨a.l1, a.l2, a.l3, a.l1⟩ ⟨b.l1, b.l3, b.l1, b.l2⟩)
  -- tmp1 = swizzle!(a, 3, 2, 1, 2) * swizzle!(b, 0, 0, 0, 2)
  let tmp1 := R4.mul ⟨a.l2, a.l1, a.l2, a.l3⟩ ⟨b.l2, b.l0, b.l0, b.l0⟩
  -- tmp2 = swizzle!(a, 2, 1, 3, 3) * swizzle!(b, 1, 3, 2, 3)
  let tmp2 := R4.mul ⟨a.l3, a.l3, a.l1, a.l2⟩ ⟨b.l3, b.l2, b.l3, b.l1⟩
  -- tmp = xor(tmp1 + tmp2, _mm_set_ss(-0.0))
  let tmp := (tmp1.add tmp2).flip0
  p1.add tmp

/-- `impl Mul<Rotor> for Rotor` (`geometric_product.rs:119`):
`Rotor::from(gp11(a.p1, b.p1))`. -/
noncomputable def Rotor.gp (a b : Rotor) : Rotor := ⟨gp11 a.p1 b.p1⟩

/-- `Point { p3 }` with real lanes. -/
structure PointR where
  p3 : R4

/-- `Point::new(x, y, z)` with real lanes (`point.rs:31`). -/
noncomputable def PointR.new (x y z : ℝ) : PointR := ⟨⟨1, x, y, z⟩⟩

/-- `sw012` (`src/arch/sandwitch.rs:401-502`): apply a rotor (`c = none`)
or motor (`c = some _`) to a p0- or p3-partition target `a`, transcribed
shuffle by shuffle.  `dc_scale = _mm_set_ps(2, 2, 2, 1)`. -/
noncomputable def sw012 (a b : R4) (c : Option R4) : R4 :=
  -- tmp1 = swizzle!(b, 0, 0, 0, 2) * swizzle!(b, 2, 1, 3, 2)
  let tmp1 := R4.mul ⟨b.l2, b.l0, b.l0, b.l0⟩ ⟨b.l2, b.l3, b.l1, b.l2⟩
  -- tmp1 += swizzle!(b, 1, 3, 2, 1) * swizzle!(b, 3, 2, 1, 1)
  let tmp1 := tmp1.add (R4.mul ⟨b.l1, b.l2, b.l3, b.l1⟩ ⟨b.l1, b.l1, b.l2, b.l3⟩)
  -- tmp1 *= dc_scale; scaled later with (a0, a2, a3, a1)
  let tmp1 := tmp1.mul ⟨1, 2, 2, 2⟩
  -- tmp2 = b * b_xwyz - xor(set_ss(-0.0), swizzle!(b,0,0,0,3) * swizzle!(b,1,3,2,3))
  let tmp2 := b.mul ⟨b.l0, b.l3, b.l1, b.l2⟩
  let tmp2 := tmp2.sub ((R4.mul ⟨b.l3, b.l0, b.l0, b.l0⟩ ⟨b.l3, b.l2, b.l3, b.l1⟩).flip0)
  -- tmp2 *= dc_scale; scaled later with (a0, a3, a1, a2)
  let tmp2 := tmp2.mul ⟨1, 2, 2, 2⟩
  -- tmp3 = b * b - b_xwyz * b_xwyz + b_xxxx * b_xxxx - b_xzwy * b_xzwy
  let tmp3 := (b.mul b).sub (R4.mul ⟨b.l0, b.l3, b.l1, b.l2⟩ ⟨b.l0, b.l3, b.l1, b.l2⟩)
  let tmp3 := tmp3.add (R4.mul ⟨b.l0, b.l0, b.l0, b.l0⟩ ⟨b.l0, b.l0, b.l0, b.l0⟩)
  let tmp3 := tmp3.sub (R4.mul ⟨b.l0, b.l2, b.l3, b.l1⟩ ⟨b.l0, b.l2, b.l3, b.l1⟩)
  -- loop body: p = tmp1 * a.xzwy + tmp2 * a.xwyz + tmp3 * a (+ hi_dp(tmp4, a))
  let base := ((tmp1.mul ⟨a.l0, a.l2, a.l3, a.l1⟩).add
    (tmp2.mul ⟨a.l0, a.l3, a.l1, a.l2⟩)).add (tmp3.mul a)
  match c with
  | none => base
  | some c =>
    -- tmp4 = b_xxxx * c + b_xzwy * c.xwyz + b * c.xxxx - b_xwyz * c.xzwy,
    -- then scaled by dc_scale; the contribution to the output is hi_dp(tmp4, a)
    let tmp4 := (R4.mul ⟨b.l0, b.l0, b.l0, b.l0⟩ c).add
      (R4.mul ⟨b.l0, b.l2, b.l3, b.l1⟩ ⟨c.l0, c.l3, c.l1, c.l2⟩)
    let tmp4 := tmp4.add (b.mul ⟨c.l0, c.l0, c.l0, c.l0⟩)
    let tmp4 := tmp4.sub (R4.mul ⟨b.l0, b.l3, b.l1, b.l2⟩ ⟨c.l0, c.l2, c.l3, c.l1⟩)
    let tmp4 := tmp4.mul ⟨1, 2, 2, 2⟩
    base.add (R4.hi_dp tmp4 a)

/-- `Rotor::conj_point` (`rotor.rs:244-252`): `sw012(p.p3, self.p1, None)`. -/
noncomputable def Rotor.conj_point (r : Rotor) (p : PointR) : PointR :=
  ⟨sw012 p.p3 r.p1 none⟩

/-! ## Motor exp / log (`exp_log.rs`) -/

/-- `Motor { p1, p2 }` with real lanes. -/
structure Motor where
  p1 : R4
  p2 : R4

/-- `Line { p1, p2 }` with real lanes. -/
structure LineR where
  p1 : R4
  p2 : R4

/-- The bivector-lane mask `f32x4::new(1.0, 1.0, 1.0, 0.0)` used at the
top of `log` (`exp_log.rs:222`): lane 0 is zeroed. -/
noncomputable def bvMask : R4 := ⟨0, 1, 1, 1⟩

/-- `s_scalar` of `log` (`exp_log.rs:231`): with `a` the bivector lanes of
p1, this is `(hi_dp_bc(a,a) * rsqrt_nr1(hi_dp_bc(a,a))).extract0()`, i.e.
the Euclidean bivector norm (the `sinu` of the source's comments). -/
noncomputable def log_s (p1 : R4) : ℝ :=
  let a := bvMask.mul p1
  let a2 := R4.hi_dp_bc a a
  ((a2.mul (R4.rsqrt_nr1 a2)).l0)

/-- `t_scalar` of `log` (`exp_log.rs:232`): `(hi_dp_bc(a,b) *
rsqrt_nr1(hi_dp_bc(a,a))).extract0() * -1.0` (the `v·cosu` of the
source's comments). -/
noncomputable def log_t (p1 p2 : R4) : ℝ :=
  let a := bvMask.mul p1
  let b := bvMask.mul p2
  let a2 := R4.hi_dp_bc a a
  ((R4.hi_dp_bc a b).mul (R4.rsqrt_nr1 a2)).l0 * (-1)

/-- The branch of `log` (`exp_log.rs:246-251`): `p_zero = p_scalar.abs() <
1e-6`; if `p_zero` the angle/magnitude pair is `(atan2(-q, t), -q / s)`,
otherwise it is `(atan2(s, p), t / p)`. -/
noncomputable def logUV (p1 p2 : R4) : ℝ × ℝ :=
  let p_scalar := p1.l0
  let q_scalar := p2.l0
  if |p_scalar| < logEps then
    (atan2 (-q_scalar) (log_t p1 p2), -q_scalar / log_s p1)
  else
    (atan2 (log_s p1) p_scalar, log_t p1 p2 / p_scalar)

/-- `log(p1, p2)` (`exp_log.rs:209-265`): the motor logarithm. -/
noncomputable def logK (p1 p2 : R4) : R4 × R4 :=
  let a := bvMask.mul p1
  let b := bvMask.mul p2
  let a2 := R4.hi_dp_bc a a
  let ab := R4.hi_dp_bc a b
  let a2_sqrt_rcp := R4.rsqrt_nr1 a2
  let uv := logUV p1 p2
  let norm_real := a.mul a2_sqrt_rcp
  let norm_ideal := b.mul a2_sqrt_rcp
  let norm_ideal := norm_ideal.sub (((a.mul ab).mul a2_sqrt_rcp).mul (R4.rcp_nr1 a2))
  let uvec := R4.all uv.1
  (uvec.mul norm_real, (uvec.mul norm_ideal).sub ((R4.all uv.2).mul norm_real))

/-- `exp(a, b)` (`exp_log.rs:123-206`): the bivector exponential. -/
noncomputable def expK (a b : R4) : R4 × R4 :=
  let a2 := R4.hi_dp_bc a a
  let ab := R4.hi_dp_bc a b
  let a2_sqrt_rcp := R4.rsqrt_nr1 a2
  let u := (a2.mul a2_sqrt_rcp).l0
  let minus_v := (ab.mul a2_sqrt_rcp)
  let norm_real := a.mul a2_sqrt_rcp
  let norm_ideal := b.mul a2_sqrt_rcp
  let norm_ideal := norm_ideal.sub (((a.mul ab).mul a2_sqrt_rcp).mul (R4.rcp_nr1 a2))
  let sin := Real.sin u
  let cos := Real.cos u
  let sinu := R4.all sin
  let p1 := (R4.set0 cos).add (sinu.mul norm_real)
  -- cosu = f32x4::new(cos, cos, cos, 0.0): lane 0 is zero
  let cosu : R4 := ⟨0, cos, cos, cos⟩
  let minus_vcosu := minus_v.mul cosu
  let p2 := ((R4.set0 (minus_v.l0 * sin)).add (sinu.mul norm_ideal)).add
    (minus_vcosu.mul norm_real)
  (p1, p2)

/-- `Motor::log` (`exp_log.rs:96-98`). -/
noncomputable def Motor.log (m : Motor) : LineR :=
  ⟨(logK m.p1 m.p2).1, (logK m.p1 m.p2).2⟩

/-- `Line::exp` (`exp_log.rs:9-12`). -/
noncomputable def LineR.exp (l : LineR) : Motor :=
  ⟨(expK l.p1 l.p2).1, (expK l.p1 l.p2).2⟩

/-- `Motor::reverse` (`motor.rs:233-239`): flips the sign of lanes 1-3 of
both partitions. -/
noncomputable def Motor.reversed (m : Motor) : Motor := ⟨m.p1.flipHi, m.p2.flipHi⟩

/-- `gp_mm(a, b, c, d)` (`multivector_gp.rs:487-532`, the live motor-motor
geometric product used by `impl Mul<Motor> for Motor` at
`multivector_gp.rs:229-231` as `gp_mm(a.p1, a.p2, b.p1, b.p2)`),
transcribed shuffle by shuffle: `a, b` are the partitions of the first
motor, `c, d` those of the second. -/
noncomputable def gpMM (m1 m2 : Motor) : Motor :=
  let a := m1.p1
  let b := m1.p2
  let c := m2.p1
  let d := m2.p2
  -- a_zyzw = swizzle!(a, 3, 2, 1, 2), a_ywyz = swizzle!(a, 2, 1, 3, 1),
  -- a_wzwy = swizzle!(a, 1, 3, 2, 3)
  let a_zyzw : R4 := ⟨a.l2, a.l1, a.l2, a.l3⟩
  let a_ywyz : R4 := ⟨a.l1, a.l3, a.l1, a.l2⟩
  let a_wzwy : R4 := ⟨a.l3, a.l2, a.l3, a.l1⟩
  -- c_wwyz = swizzle!(c, 2, 1, 3, 3), c_yzwy = swizzle!(c, 1, 3, 2, 1)
  let c_wwyz : R4 := ⟨c.l3, c.l3, c.l1, c.l2⟩
  let c_yzwy : R4 := ⟨c.l1, c.l2, c.l3, c.l1⟩
  let e := R4.mul ⟨a.l0, a.l0, a.l0, a.l0⟩ c
  let t := a_ywyz.mul c_yzwy
  let t := t.add (a_zyzw.mul ⟨c.l2, c.l0, c.l0, c.l0⟩)
  let t := t.flip0
  let e := e.add t
  let e := e.sub (a_wzwy.mul c_wwyz)
  let f := R4.mul ⟨a.l0, a.l0, a.l0, a.l0⟩ d
  let f := f.add (b.mul ⟨c.l0, c.l0, c.l0, c.l0⟩)
  let f := f.add (a_ywyz.mul ⟨d.l1, d.l2, d.l3, d.l1⟩)
  let f := f.add (R4.mul ⟨b.l1, b.l3, b.l1, b.l2⟩ c_yzwy)
  let t2 := a_zyzw.mul ⟨d.l2, d.l0, d.l0, d.l0⟩
  let t2 := t2.add (a_wzwy.mul ⟨d.l3, d.l3, d.l1, d.l2⟩)
  let t2 := t2.add (R4.mul ⟨b.l2, b.l0, b.l0, b.l0⟩ ⟨c.l2, c.l1, c.l2, c.l3⟩)
  let t2 := t2.add (R4.mul ⟨b.l3, b.l2, b.l3, b.l1⟩ c_wwyz)
  let t2 := t2.flip0
  let f := f.sub t2
  ⟨e, f⟩

/-- The identity motor (`Motor::new(1, 0, 0, 0, 0, 0, 0, 0)`): scalar lane
1, every other lane 0. -/
noncomputable def Motor.one : Motor := ⟨⟨1, 0, 0, 0⟩, ⟨0, 0, 0, 0⟩⟩

/-- Numeric (IEEE `==`) equality of two modelled lanes: both are non-NaN
and their signed values coincide.  This is what `_mm_cmpeq_ps` decides
on one lane. -/
def F32.numEq (a b : F32) : Prop :=
  a.nan = false ∧ b.nan = false ∧ a.toVal = b.toVal

/-!
# Theorems

First, sanity checks pinning the embedded kernels to the concrete vectors
of the repository's own test suite. -/

/-- `tests/multivector_ep.rs::plane_plane`: the meet of
`Plane::new(1, 2, 3, 4)` and `Plane::new(2, 3, -1, -2)`. -/
example :
    let l := Plane.meet (Plane.new 1 2 3 4) (Plane.new 2 3 (-1) (-2))
    l.e01 = 10 ∧ l.e02 = 16 ∧ l.e03 = 2 ∧ l.e12 = -1 ∧ l.e31 = 7 ∧ l.e23 = -11 := by
  refine ⟨?_, ?_, ?_, ?_, ?_, ?_⟩ <;>
    simp only [Plane.meet, ext00, Plane.new, Q4.set, Q4.mul, Q4.sub,
      Line.e01, Line.e02, Line.e03, Line.e12, Line.e31, Line.e23] <;>
    norm_num

/-- `tests/multivector_gp.rs::branch_branch`: `gp11` on the p1 registers of
`Branch::new(1, -2, -3)` and `Branch::new(2, 1, 3)` (scalar 9, e23 3,
e31 9, e12 -5). -/
example : gp11 ⟨0, 1, -2, -3⟩ ⟨0, 2, 1, 3⟩ = ⟨9, 3, 9, -5⟩ := by
  simp only [gp11, R4.mul, R4.add, R4.sub, R4.flip0, R4.mk.injEq]
  norm_num

/-- `tests/multivector_gp.rs::motor_motor`: `gp_mm` on
`Motor::new(2,…,9)` and `Motor::new(6,…,13)`. -/
example :
    gpMM ⟨⟨2, 3, 4, 5⟩, ⟨9, 6, 7, 8⟩⟩ ⟨⟨6, 7, 8, 9⟩, ⟨13, 10, 11, 12⟩⟩ =
      ⟨⟨-86, 36, 32, 52⟩, ⟨384, -38, -76, -66⟩⟩ := by
  simp only [gpMM, R4.mul, R4.add, R4.sub, R4.flip0, Motor.mk.injEq, R4.mk.injEq]
  norm_num

/-- C1.  The claim states that the approximate-equality operator on
planes, rotors and raw `f32x4` values returns `true` iff every lane
satisfies `|a - b| < ε`.  The code returns `movemask != 0b1111`, the
negation of that condition (`plane.rs:104`, `rotor.rs:153`,
`src/arch/mod.rs:208`), so on two identical operands — where every lane
trivially satisfies `|a - b| = 0 < ε` — all three operators return
`false`.  (The sibling implementations `Line::line_approx_eq`,
`Motor::approx_eq` and `f32x4::approx_eq_pair` use `== 0xf`, and the
repository's own tests assert `approx_eq` of nearly equal values is
true, so this is a slip in the code.) -/
theorem C1_approx_eq_inverted_on_equal_operands :
    Plane.plane_approx_eq (Plane.new 1 2 3 4) (Plane.new 1 2 3 4) (1 / 1000) = false ∧
    RotorQ.rotor_approx_eq ⟨⟨1, 2, 3, 4⟩⟩ ⟨⟨1, 2, 3, 4⟩⟩ (1 / 1000) = false ∧
    Q4.approx_eq ⟨1, 2, 3, 4⟩ ⟨1, 2, 3, 4⟩ (1 / 1000) = false := by
  refine ⟨?_, ?_, ?_⟩ <;>
    simp only [Plane.plane_approx_eq, RotorQ.rotor_approx_eq, Q4.approx_eq,
      Q4.allLt, Q4.absLanes, Q4.sub, Plane.new, Q4.set, Bool.not_eq_false',
      Bool.and_eq_true, decide_eq_true_eq] <;>
    norm_num

/-- C6.  The join of the points `Point::new(0, 0, 0)` and
`Point::new(0, 0, 1)` (component-wise constructor, homogeneous lane 1) is
the line with `e12 = 1` and all five other Plücker coordinates exactly
`0`. -/
theorem C6_join_points_z_axis :
    (Point.join (Point.new 0 0 0) (Point.new 0 0 1)).e12 = 1 ∧
    (Point.join (Point.new 0 0 0) (Point.new 0 0 1)).e23 = 0 ∧
    (Point.join (Point.new 0 0 0) (Point.new 0 0 1)).e31 = 0 ∧
    (Point.join (Point.new 0 0 0) (Point.new 0 0 1)).e01 = 0 ∧
    (Point.join (Point.new 0 0 0) (Point.new 0 0 1)).e02 = 0 ∧
    (Point.join (Point.new 0 0 0) (Point.new 0 0 1)).e03 = 0 := by
  refine ⟨?_, ?_, ?_, ?_, ?_, ?_⟩ <;>
    simp only [Point.join, Point.new, Point.dual, Plane.dual, Line.dual,
      Plane.meet, ext00, Q4.set, Q4.mul, Q4.sub,
      Line.e01, Line.e02, Line.e03, Line.e12, Line.e31, Line.e23] <;>
    norm_num

/-- C7.  The dual operator is an involution on every entity that has one:
for `Plane`, `Point`, `Line`, `Branch`, `IdealLine` and `Dual`, applying
`!` twice returns a value whose stored lanes equal the input's lanes
exactly. -/
theorem C7_dual_involution :
    (∀ a : Plane, a.dual.dual = a) ∧ (∀ a : Point, a.dual.dual = a) ∧
    (∀ a : Line, a.dual.dual = a) ∧ (∀ a : Branch, a.dual.dual = a) ∧
    (∀ a : IdealLine, a.dual.dual = a) ∧ (∀ a : Dual, a.dual.dual = a) :=
  ⟨fun _ => rfl, fun _ => rfl, fun _ => rfl, fun _ => rfl, fun _ => rfl, fun _ => rfl⟩

/-- C8.  Conjugating any point by any translator (`sw32`) leaves the
homogeneous e123 lane unchanged and adds `-2·P₀·t_i` to each upper
lane. -/
theorem C8_translator_point_is_translation (t : Translator) (p : Point) :
    (t.conj_point p).p3.l0 = p.p3.l0 ∧
    (t.conj_point p).p3.l1 = p.p3.l1 - 2 * p.p3.l0 * t.p2.l1 ∧
    (t.conj_point p).p3.l2 = p.p3.l2 - 2 * p.p3.l0 * t.p2.l2 ∧
    (t.conj_point p).p3.l3 = p.p3.l3 - 2 * p.p3.l0 * t.p2.l3 := by
  refine ⟨?_, ?_, ?_, ?_⟩ <;>
    simp only [Translator.conj_point, sw32, Q4.mul, Q4.add] <;> ring

/-- C10.  The generated `Div<f32>` for `Direction` multiplies each lane by
the scalar instead of dividing: `d / s` equals `d * s` for every
direction and every scalar. -/
theorem C10_direction_div_is_mul (d : Direction) (s : ℚ) :
    d.divScalar s = d.mulScalar s ∧
    (d.divScalar s).p3 =
      ⟨d.p3.l0 * s, d.p3.l1 * s, d.p3.l2 * s, d.p3.l3 * s⟩ :=
  ⟨rfl, rfl⟩

/-- C2.  The claim states that `a · inverse(a)` is the grade identity
(scalar lane 1, non-scalar lanes 0, within ε) for every rotor of nonzero
norm, with `invert` computed as normalize-squared plus a sign flip.  But
`Rotor::invert` (`rotor.rs:106-113`) divides by the HIGH-lane squared
norm `hi_dp_bc` — the bivector part only — whereas `Rotor::normalize`
(`rotor.rs:91-98`) uses the full `dp_bc`.  For the rotor `1 + e23`
(lanes `(1, 1, 0, 0)`, norm `√2 ≠ 0`) the product `r · inverse(r)`
evaluates to scalar lane `2`, not `1`: in general the scalar lane is
`(s² + |B|²) / |B|²`.  The spec (§8 item 4 and the §4.3 table) is clearly
the intent and the `hi_dp_bc` in `invert` a slip (the identical code is
correct in `Branch::invert`, where the scalar lane is zero). -/
theorem C2_rotor_inverse_failing_input :
    Rotor.gp ⟨⟨1, 1, 0, 0⟩⟩ (Rotor.inverse ⟨⟨1, 1, 0, 0⟩⟩) = ⟨⟨2, 0, 0, 0⟩⟩ := by
  simp only [Rotor.gp, Rotor.inverse, gp11, R4.hi_dp_bc, R4.rsqrt_nr1, R4.all,
    R4.mul, R4.flipHi, R4.add, R4.sub, R4.flip0, Rotor.mk.injEq, R4.mk.injEq]
  norm_num [Real.sqrt_one]

/-- C4.  Applying the rotor `Rotor::new(π/2, 0, 0, 1)` to the point
`Point::new(1, 0, 0)` by conjugation (`sw012`) yields exactly the point
`(0, 1, 0)` (idealized real arithmetic; a fortiori approximately). -/
theorem C4_rotor_quarter_turn_about_z :
    Rotor.conj_point (Rotor.new (Real.pi / 2) 0 0 1) (PointR.new 1 0 0) =
      PointR.new 0 1 0 := by
  have harg : (0.5 : ℝ) * (Real.pi / 2) = Real.pi / 4 := by ring
  have hs : Real.sin ((0.5 : ℝ) * (Real.pi / 2)) = Real.sqrt 2 / 2 := by
    rw [harg, Real.sin_pi_div_four]
  have hc : Real.cos ((0.5 : ℝ) * (Real.pi / 2)) = Real.sqrt 2 / 2 := by
    rw [harg, Real.cos_pi_div_four]
  have h2 : Real.sqrt 2 * Real.sqrt 2 = 2 :=
    Real.mul_self_sqrt (by norm_num)
  simp only [Rotor.conj_point, Rotor.new, PointR.new, sw012, R4.mul, R4.add,
    R4.sub, R4.flip0, R4.hi_dp, PointR.mk.injEq, R4.mk.injEq, hs, hc,
    Real.sqrt_one]
  norm_num
  constructor <;> nlinarith [h2]

/-- C5 counterexample.  The claim partitions the logarithm's branch at
`|p| > 10⁻⁶`: strictly greater for the `(atan2(sinu, p), v·cosu / p)`
branch and "otherwise" — including `|p| = 10⁻⁶` — for the
`(atan2(-q, v·cosu), -q/sinu)` branch.  The code tests `|p| < 1e-6`
(`exp_log.rs:246`), so at `|p| = 10⁻⁶` exactly it takes the FIRST branch.
At the motor with `p1 = (10⁻⁶, 1, 0, 0)`, `p2 = (1, 0, 0, 0)` the code's
magnitude is `t/p = 0` while the claim requires `-q/s = -1`. -/
theorem C5_log_branch_counterexample :
    ¬ (∀ p1 p2 : R4,
      (logEps < |p1.l0| →
        logUV p1 p2 = (atan2 (log_s p1) p1.l0, log_t p1 p2 / p1.l0)) ∧
      (¬ logEps < |p1.l0| →
        logUV p1 p2 = (atan2 (-p2.l0) (log_t p1 p2), -p2.l0 / log_s p1))) := by
  intro h
  have habs : |(1 / 1000000 : ℝ)| = 1 / 1000000 := abs_of_nonneg (by norm_num)
  have hnot : ¬ logEps < |(⟨logEps, 1, 0, 0⟩ : R4).l0| := by
    simp only [logEps]
    rw [habs]
    exact lt_irrefl _
  have h2 := (h ⟨logEps, 1, 0, 0⟩ ⟨1, 0, 0, 0⟩).2 hnot
  have hv := congrArg Prod.snd h2
  simp only [logUV, log_s, log_t, bvMask, logEps, R4.mul, R4.hi_dp_bc, R4.all,
    R4.rsqrt_nr1] at hv
  rw [if_neg (by rw [habs]; norm_num)] at hv
  norm_num [Real.sqrt_one] at hv

/-- C5 amended.  The branch threshold is inclusive on the first branch:
when `|p| ≥ 10⁻⁶` the logarithm computes angle `atan2(sinu, p)` and
magnitude `(v·cosu)/p`, and when `|p| < 10⁻⁶` it computes angle
`atan2(-q, v·cosu)` and magnitude `-q/sinu` (where `sinu = log_s` and
`v·cosu = log_t` are the source's `s_scalar` and `t_scalar`, and `q` the
pseudoscalar lane). -/
theorem C5_log_branch (p1 p2 : R4) :
    (logEps ≤ |p1.l0| →
      logUV p1 p2 = (atan2 (log_s p1) p1.l0, log_t p1 p2 / p1.l0)) ∧
    (|p1.l0| < logEps →
      logUV p1 p2 = (atan2 (-p2.l0) (log_t p1 p2), -p2.l0 / log_s p1)) := by
  constructor
  · intro h
    rw [logUV, if_neg (not_lt.2 h)]
  · intro h
    rw [logUV, if_pos h]

/-- C5 witness: the amended branch description applied at the motor with
`p1 = (1, 1, 0, 0)`, `p2 = (0, 0, 0, 0)` (scalar lane 1, so the first
branch applies). -/
theorem C5_log_branch_witness :
    logEps ≤ |(1 : ℝ)| ∧
      logUV ⟨1, 1, 0, 0⟩ ⟨0, 0, 0, 0⟩ =
        (atan2 (log_s ⟨1, 1, 0, 0⟩) 1, log_t ⟨1, 1, 0, 0⟩ ⟨0, 0, 0, 0⟩ / 1) := by
  have h : logEps ≤ |(1 : ℝ)| := by norm_num [logEps]
  exact ⟨h, (C5_log_branch ⟨1, 1, 0, 0⟩ ⟨0, 0, 0, 0⟩).1 h⟩

/-! ### Helper lemmas for the exp/log round trip (C3) -/

/-- For `y > 0` on the unit circle, `atan2 y x` has cosine `x`, sine `y`,
and lies in `(0, π]`. -/
lemma atan2_cos_sin {y x : ℝ} (hy : 0 < y) (h1 : x * x + y * y = 1) :
    Real.cos (atan2 y x) = x ∧ Real.sin (atan2 y x) = y ∧ 0 < atan2 y x := by
  have hz : (⟨x, y⟩ : ℂ) ≠ 0 := by
    intro h
    have him := congrArg Complex.im h
    simp only [Complex.zero_im] at him
    exact absurd him (by simpa using hy.ne')
  have habs : Complex.abs ⟨x, y⟩ = 1 := by
    rw [Complex.abs_apply, Complex.normSq_mk, h1, Real.sqrt_one]
  have hcos : Real.cos (atan2 y x) = x := by
    rw [atan2, Complex.cos_arg hz, habs]
    simp
  have hsin : Real.sin (atan2 y x) = y := by
    rw [atan2, Complex.sin_arg, habs]
    simp
  refine ⟨hcos, hsin, ?_⟩
  by_contra hle
  push_neg at hle
  have hnp : -Real.pi ≤ atan2 y x := (Complex.neg_pi_lt_arg _).le
  have := Real.sin_nonpos_of_nonnpos_of_neg_pi_le hle hnp
  rw [hsin] at this
  linarith

/-- For `0 < u < π`, the logarithm's branch recovers `u` from its sine and
cosine: `atan2 (sin u) (cos u) = u`. -/
lemma atan2_sin_cos {u : ℝ} (h0 : 0 < u) (hpi : u < Real.pi) :
    atan2 (Real.sin u) (Real.cos u) = u := by
  rw [atan2, show (⟨Real.cos u, Real.sin u⟩ : ℂ) = Complex.cos u + Complex.sin u * Complex.I by
    rw [Complex.mk_eq_add_mul_I, Complex.ofReal_cos, Complex.ofReal_sin]]
  exact Complex.arg_cos_add_sin_mul_I ⟨by linarith [Real.pi_pos], hpi.le⟩

/-- A motor satisfies `m · reverse(m) = 1` (scalar lane 1, all other lanes
0) exactly when `p² + |a|² = 1` and `p·q = a·b` hold on its lanes. -/
lemma normalized_equations {p a1 a2 a3 q b1 b2 b3 : ℝ}
    (H : gpMM ⟨⟨p, a1, a2, a3⟩, ⟨q, b1, b2, b3⟩⟩
        (Motor.reversed ⟨⟨p, a1, a2, a3⟩, ⟨q, b1, b2, b3⟩⟩) = Motor.one) :
    a1 * a1 + a2 * a2 + a3 * a3 = 1 - p * p ∧
      p * q = a1 * b1 + a2 * b2 + a3 * b3 := by
  have h1 := congrArg (fun m => m.p1.l0) H
  have h2 := congrArg (fun m => m.p2.l0) H
  simp only [gpMM, Motor.reversed, Motor.one, R4.mul, R4.add, R4.sub,
    R4.flip0, R4.flipHi] at h1 h2
  constructor <;> nlinarith [h1, h2]

/-- Closed form of the motor logarithm on the non-degenerate branch:
with `s` the Euclidean bivector norm (`s² = a·a`, `s > 0`) and
`|p| ≥ 10⁻⁶`, `log` returns `u·n + (u·n_⊥ - v·n)·e₀₁₂₃` with
`u = atan2(s, p)` and `v = -(a·b)/(s·p)`. -/
lemma logK_eval (p a1 a2 a3 q b1 b2 b3 s : ℝ) (hs : 0 < s)
    (hsum : a1 * a1 + a2 * a2 + a3 * a3 = s * s)
    (hbr : ¬ |p| < logEps) :
    logK ⟨p, a1, a2, a3⟩ ⟨q, b1, b2, b3⟩ =
      (⟨0, atan2 s p * (a1 * s⁻¹), atan2 s p * (a2 * s⁻¹), atan2 s p * (a3 * s⁻¹)⟩,
       ⟨0,
        atan2 s p * (b1 * s⁻¹ - a1 * (a1 * b1 + a2 * b2 + a3 * b3) * s⁻¹ * (s * s)⁻¹)
          + (a1 * b1 + a2 * b2 + a3 * b3) / (s * p) * (a1 * s⁻¹),
        atan2 s p * (b2 * s⁻¹ - a2 * (a1 * b1 + a2 * b2 + a3 * b3) * s⁻¹ * (s * s)⁻¹)
          + (a1 * b1 + a2 * b2 + a3 * b3) / (s * p) * (a2 * s⁻¹),
        atan2 s p * (b3 * s⁻¹ - a3 * (a1 * b1 + a2 * b2 + a3 * b3) * s⁻¹ * (s * s)⁻¹)
          + (a1 * b1 + a2 * b2 + a3 * b3) / (s * p) * (a3 * s⁻¹)⟩) := by
  have hs0 : s ≠ 0 := hs.ne'
  have hp : p ≠ 0 := by
    intro h
    rw [h] at hbr
    exact hbr (by rw [abs_zero]; rw [logEps]; norm_num)
  have hsqrt : Real.sqrt (s * s) = s := Real.sqrt_mul_self hs.le
  have hss1 : s * s * s⁻¹ = s := by field_simp
  simp only [logK, logUV, log_s, log_t, bvMask, R4.mul, R4.hi_dp_bc, R4.all,
    R4.rsqrt_nr1, R4.rcp_nr1, R4.sub, R4.add, one_mul, zero_mul, mul_zero,
    add_zero, zero_add]
  rw [if_neg hbr, hsum, hsqrt, hss1]
  simp only [Prod.mk.injEq, R4.mk.injEq]
  refine ⟨trivial, by ring, ?_, ?_, ?_⟩ <;>
    field_simp <;> ring

/-- Closed form of the bivector exponential on an input whose Euclidean
part is `u` times a unit bivector `x` (and vanishing scalar /
pseudoscalar lanes). -/
lemma expK_eval (x1 x2 x3 y1 y2 y3 u Y : ℝ) (hu : 0 < u)
    (hx : x1 * x1 + x2 * x2 + x3 * x3 = 1)
    (hY : x1 * y1 + x2 * y2 + x3 * y3 = Y) :
    expK ⟨0, u * x1, u * x2, u * x3⟩ ⟨0, y1, y2, y3⟩ =
      (⟨Real.cos u, Real.sin u * x1, Real.sin u * x2, Real.sin u * x3⟩,
       ⟨Y * Real.sin u,
        Real.sin u * (y1 * u⁻¹ - x1 * Y * u⁻¹) + Y * Real.cos u * x1,
        Real.sin u * (y2 * u⁻¹ - x2 * Y * u⁻¹) + Y * Real.cos u * x2,
        Real.sin u * (y3 * u⁻¹ - x3 * Y * u⁻¹) + Y * Real.cos u * x3⟩) := by
  have hu0 : u ≠ 0 := hu.ne'
  have hsumA : u * x1 * (u * x1) + u * x2 * (u * x2) + u * x3 * (u * x3) = u * u := by
    linear_combination (u * u) * hx
  have hsqrtu : Real.sqrt (u * u) = u := Real.sqrt_mul_self hu.le
  have huu : u * u * u⁻¹ = u := by field_simp
  subst hY
  simp only [expK, R4.mul, R4.hi_dp_bc, R4.all, R4.rsqrt_nr1, R4.rcp_nr1,
    R4.sub, R4.add, R4.set0, one_mul, zero_mul, mul_zero, add_zero, zero_add]
  rw [hsumA, hsqrtu, huu]
  simp only [Prod.mk.injEq, R4.mk.injEq]
  refine ⟨⟨trivial, ?_, ?_, ?_⟩, ?_, ?_, ?_, ?_⟩ <;>
    field_simp <;> ring

set_option maxHeartbeats 1600000 in
/-- The exp-log round trip on a normalized motor (lane form): if
`|a|² = 1 - p²`, `p·q = a·b`, `|p| ≥ 10⁻⁶` and `p ≠ ±1`, then
`exp(log(m)) = m` exactly. -/
lemma expK_logK_motor (p a1 a2 a3 q b1 b2 b3 : ℝ)
    (hn1 : a1 * a1 + a2 * a2 + a3 * a3 = 1 - p * p)
    (hn2 : p * q = a1 * b1 + a2 * b2 + a3 * b3)
    (heps : logEps ≤ |p|) (hp1 : p ≠ 1) (hp2 : p ≠ -1) :
    expK (logK ⟨p, a1, a2, a3⟩ ⟨q, b1, b2, b3⟩).1
        (logK ⟨p, a1, a2, a3⟩ ⟨q, b1, b2, b3⟩).2 =
      (⟨p, a1, a2, a3⟩, ⟨q, b1, b2, b3⟩) := by
  have h0 : (0 : ℝ) ≤ a1 * a1 + a2 * a2 + a3 * a3 := by
    nlinarith [mul_self_nonneg a1, mul_self_nonneg a2, mul_self_nonneg a3]
  have hppne : p * p ≠ 1 := by
    intro h
    rcases mul_eq_zero.1 (show (p - 1) * (p + 1) = 0 by linear_combination h) with h' | h'
    · exact hp1 (by linarith)
    · exact hp2 (by linarith)
  have hS : 0 < a1 * a1 + a2 * a2 + a3 * a3 :=
    lt_of_le_of_ne h0 (fun h => hppne (by linarith))
  set s := Real.sqrt (a1 * a1 + a2 * a2 + a3 * a3) with hsdef
  have hs : 0 < s := Real.sqrt_pos.2 hS
  have hs0 : s ≠ 0 := hs.ne'
  have hp0 : p ≠ 0 := by
    intro h
    rw [h, abs_zero, logEps] at heps
    linarith
  have hsum : a1 * a1 + a2 * a2 + a3 * a3 = s * s := (Real.mul_self_sqrt hS.le).symm
  have hbr : ¬ |p| < logEps := not_lt.2 heps
  obtain ⟨hcosu, hsinu, hupos⟩ := atan2_cos_sin hs (show p * p + s * s = 1 by linarith)
  have hu0 : atan2 s p ≠ 0 := hupos.ne'
  have hx : a1 * s⁻¹ * (a1 * s⁻¹) + a2 * s⁻¹ * (a2 * s⁻¹) + a3 * s⁻¹ * (a3 * s⁻¹) = 1 := by
    field_simp
    linear_combination hsum
  rw [logK_eval p a1 a2 a3 q b1 b2 b3 s hs hsum hbr]
  dsimp only
  rw [show a1 * b1 + a2 * b2 + a3 * b3 = p * q from hn2.symm]
  have hY : a1 * s⁻¹ *
        (atan2 s p * (b1 * s⁻¹ - a1 * (p * q) * s⁻¹ * (s * s)⁻¹)
          + p * q / (s * p) * (a1 * s⁻¹)) +
      a2 * s⁻¹ *
        (atan2 s p * (b2 * s⁻¹ - a2 * (p * q) * s⁻¹ * (s * s)⁻¹)
          + p * q / (s * p) * (a2 * s⁻¹)) +
      a3 * s⁻¹ *
        (atan2 s p * (b3 * s⁻¹ - a3 * (p * q) * s⁻¹ * (s * s)⁻¹)
          + p * q / (s * p) * (a3 * s⁻¹)) = q * s⁻¹ := by
    field_simp
    linear_combination (-(atan2 s p) * s ^ 6 * p) * hn2 +
      (q * p * s ^ 5 - atan2 s p * s ^ 4 * p ^ 2 * q) * hsum
  rw [expK_eval (a1 * s⁻¹) (a2 * s⁻¹) (a3 * s⁻¹) _ _ _ (atan2 s p) (q * s⁻¹)
    hupos hx hY]
  rw [hcosu, hsinu]
  simp only [Prod.mk.injEq, R4.mk.injEq]
  refine ⟨⟨trivial, ?_, ?_, ?_⟩, ?_, ?_, ?_, ?_⟩ <;>
    field_simp <;> ring

set_option maxHeartbeats 1600000 in
/-- The log-exp round trip on a line whose Euclidean part is `u` times a
unit bivector, with `u ∈ (0, π)` and `|cos u| ≥ 10⁻⁶`. -/
lemma logK_expK_line (x1 x2 x3 y1 y2 y3 u : ℝ)
    (hx : x1 * x1 + x2 * x2 + x3 * x3 = 1)
    (hu : 0 < u) (hupi : u < Real.pi)
    (heps : logEps ≤ |Real.cos u|) :
    logK (expK ⟨0, u * x1, u * x2, u * x3⟩ ⟨0, y1, y2, y3⟩).1
        (expK ⟨0, u * x1, u * x2, u * x3⟩ ⟨0, y1, y2, y3⟩).2 =
      (⟨0, u * x1, u * x2, u * x3⟩, ⟨0, y1, y2, y3⟩) := by
  have hsin : 0 < Real.sin u := Real.sin_pos_of_pos_of_lt_pi hu hupi
  have hsin0 : Real.sin u ≠ 0 := hsin.ne'
  have hu0 : u ≠ 0 := hu.ne'
  have hcos0 : Real.cos u ≠ 0 := by
    intro h
    rw [h, abs_zero, logEps] at heps
    linarith
  have hbr : ¬ |Real.cos u| < logEps := not_lt.2 heps
  rw [expK_eval x1 x2 x3 y1 y2 y3 u (x1 * y1 + x2 * y2 + x3 * y3) hu hx rfl]
  dsimp only
  have hsum2 : Real.sin u * x1 * (Real.sin u * x1) + Real.sin u * x2 * (Real.sin u * x2)
      + Real.sin u * x3 * (Real.sin u * x3) = Real.sin u * Real.sin u := by
    linear_combination (Real.sin u * Real.sin u) * hx
  rw [logK_eval (Real.cos u) (Real.sin u * x1) (Real.sin u * x2) (Real.sin u * x3)
    _ _ _ _ (Real.sin u) hsin hsum2 hbr]
  rw [atan2_sin_cos hu hupi]
  simp only [Prod.mk.injEq, R4.mk.injEq]
  refine ⟨⟨trivial, ?_, ?_, ?_⟩, trivial, ?_, ?_, ?_⟩
  · field_simp
  · field_simp
  · field_simp
  · field_simp
    linear_combination (-(x1) * (x1 * y1 + x2 * y2 + x3 * y3) * u ^ 2 *
      Real.sin u ^ 4 * (Real.sin u - u * Real.cos u) ^ 2) * hx
  · field_simp
    linear_combination (-(x2) * (x1 * y1 + x2 * y2 + x3 * y3) * u ^ 2 *
      Real.sin u ^ 4 * (Real.sin u - u * Real.cos u) ^ 2) * hx
  · field_simp
    linear_combination (-(x3) * (x1 * y1 + x2 * y2 + x3 * y3) * u ^ 2 *
      Real.sin u ^ 4 * (Real.sin u - u * Real.cos u) ^ 2) * hx

/-- The log-exp round trip on a general line `(0, a) + (0, b)·e₀₁₂₃` with
`0 < |a|`, `|a| < π` and `|cos |a|| ≥ 10⁻⁶`. -/
lemma logK_expK_line_gen (a1 a2 a3 b1 b2 b3 : ℝ)
    (hS : 0 < a1 * a1 + a2 * a2 + a3 * a3)
    (hpi : Real.sqrt (a1 * a1 + a2 * a2 + a3 * a3) < Real.pi)
    (heps : logEps ≤ |Real.cos (Real.sqrt (a1 * a1 + a2 * a2 + a3 * a3))|) :
    logK (expK ⟨0, a1, a2, a3⟩ ⟨0, b1, b2, b3⟩).1
        (expK ⟨0, a1, a2, a3⟩ ⟨0, b1, b2, b3⟩).2 =
      (⟨0, a1, a2, a3⟩, ⟨0, b1, b2, b3⟩) := by
  set u := Real.sqrt (a1 * a1 + a2 * a2 + a3 * a3) with hudef
  have hu : 0 < u := Real.sqrt_pos.2 hS
  have hu0 : u ≠ 0 := hu.ne'
  have hms : u * u = a1 * a1 + a2 * a2 + a3 * a3 := Real.mul_self_sqrt hS.le
  have hre : (⟨0, a1, a2, a3⟩ : R4) =
      ⟨0, u * (a1 * u⁻¹), u * (a2 * u⁻¹), u * (a3 * u⁻¹)⟩ := by
    simp only [R4.mk.injEq]
    refine ⟨trivial, ?_, ?_, ?_⟩ <;> field_simp
  have hx : a1 * u⁻¹ * (a1 * u⁻¹) + a2 * u⁻¹ * (a2 * u⁻¹) + a3 * u⁻¹ * (a3 * u⁻¹) = 1 := by
    field_simp
    linear_combination hms.symm
  rw [hre]
  exact logK_expK_line (a1 * u⁻¹) (a2 * u⁻¹) (a3 * u⁻¹) b1 b2 b3 u hx hu hpi heps

/-- C3 counterexample.  The claim asserts `exp(log(m)) ≡ m` (within ε) for
EVERY normalized motor whose scalar lane is not `±1`.  The motor
`e₂₃` — p1 lanes `(0, 1, 0, 0)`, p2 zero — is normalized
(`m·reverse(m) = 1`) and has scalar lane `0 ≠ ±1`, but its scalar lane
falls below the logarithm's `10⁻⁶` branch threshold with a vanishing
pseudoscalar, so `log` returns the zero line (`atan2(-q, v·cosu) =
atan2(0, 0) = 0`) and `exp(log(m))` is the identity motor: the e23 lane
differs from `m` by `1`, far outside any reasonable ε. -/
theorem C3_roundtrip_counterexample :
    gpMM ⟨⟨0, 1, 0, 0⟩, ⟨0, 0, 0, 0⟩⟩
        (Motor.reversed ⟨⟨0, 1, 0, 0⟩, ⟨0, 0, 0, 0⟩⟩) = Motor.one ∧
    (⟨⟨0, 1, 0, 0⟩, ⟨0, 0, 0, 0⟩⟩ : Motor).p1.l0 ≠ 1 ∧
    (⟨⟨0, 1, 0, 0⟩, ⟨0, 0, 0, 0⟩⟩ : Motor).p1.l0 ≠ -1 ∧
    (Motor.log ⟨⟨0, 1, 0, 0⟩, ⟨0, 0, 0, 0⟩⟩).exp = Motor.one ∧
    ¬ |(Motor.log ⟨⟨0, 1, 0, 0⟩, ⟨0, 0, 0, 0⟩⟩).exp.p1.l1 -
        (⟨⟨0, 1, 0, 0⟩, ⟨0, 0, 0, 0⟩⟩ : Motor).p1.l1| < 1 / 100 := by
  have hnorm : gpMM ⟨⟨0, 1, 0, 0⟩, ⟨0, 0, 0, 0⟩⟩
      (Motor.reversed ⟨⟨0, 1, 0, 0⟩, ⟨0, 0, 0, 0⟩⟩) = Motor.one := by
    simp only [gpMM, Motor.reversed, Motor.one, R4.mul, R4.add, R4.sub,
      R4.flip0, R4.flipHi, Motor.mk.injEq, R4.mk.injEq]
    norm_num
  have hlog : Motor.log ⟨⟨0, 1, 0, 0⟩, ⟨0, 0, 0, 0⟩⟩ =
      (⟨⟨0, 0, 0, 0⟩, ⟨0, 0, 0, 0⟩⟩ : LineR) := by
    simp only [Motor.log, logK, logUV, log_s, log_t, bvMask, atan2, R4.mul,
      R4.hi_dp_bc, R4.all, R4.rsqrt_nr1, R4.rcp_nr1, R4.sub, R4.add,
      LineR.mk.injEq, R4.mk.injEq]
    rw [if_pos (by rw [abs_zero, logEps]; norm_num)]
    norm_num [Real.sqrt_one, Complex.mk_eq_add_mul_I]
  have hexp : LineR.exp (⟨⟨0, 0, 0, 0⟩, ⟨0, 0, 0, 0⟩⟩ : LineR) = Motor.one := by
    simp only [LineR.exp, expK, R4.mul, R4.hi_dp_bc, R4.all, R4.rsqrt_nr1,
      R4.rcp_nr1, R4.sub, R4.add, R4.set0, Motor.one, Motor.mk.injEq, R4.mk.injEq]
    norm_num [Real.sqrt_zero]
  refine ⟨hnorm, by norm_num, by norm_num, ?_, ?_⟩
  · rw [hlog, hexp]
  · rw [hlog, hexp]
    simp only [Motor.one]
    norm_num

/-- C3 amended.  In idealized exact arithmetic the exp/log round trips
hold — exactly, hence within any ε — on the domain the counterexample
forces: (1) for every motor `m` with `m·reverse(m) = 1`, scalar lane not
`±1` AND `|scalar| ≥ 10⁻⁶` (so the logarithm takes its principal
branch), `exp(log(m)) = m`; (2) for every line with zero scalar and
pseudoscalar lanes whose Euclidean part has norm `u` with `0 < u < π`
and `|cos u| ≥ 10⁻⁶`, `log(exp(ℓ)) = ℓ`. -/
theorem C3_exp_log_roundtrip :
    (∀ m : Motor, gpMM m m.reversed = Motor.one →
      logEps ≤ |m.p1.l0| → m.p1.l0 ≠ 1 → m.p1.l0 ≠ -1 →
      m.log.exp = m) ∧
    (∀ l : LineR, l.p1.l0 = 0 → l.p2.l0 = 0 →
      0 < l.p1.l1 * l.p1.l1 + l.p1.l2 * l.p1.l2 + l.p1.l3 * l.p1.l3 →
      Real.sqrt (l.p1.l1 * l.p1.l1 + l.p1.l2 * l.p1.l2 + l.p1.l3 * l.p1.l3) <
        Real.pi →
      logEps ≤ |Real.cos (Real.sqrt
        (l.p1.l1 * l.p1.l1 + l.p1.l2 * l.p1.l2 + l.p1.l3 * l.p1.l3))| →
      l.exp.log = l) := by
  constructor
  · rintro ⟨⟨p, a1, a2, a3⟩, ⟨q, b1, b2, b3⟩⟩ H heps hp1 hp2
    obtain ⟨hn1, hn2⟩ := normalized_equations H
    simp only [Motor.log, LineR.exp]
    rw [expK_logK_motor p a1 a2 a3 q b1 b2 b3 hn1 hn2 heps hp1 hp2]
  · rintro ⟨⟨z1, a1, a2, a3⟩, ⟨z2, b1, b2, b3⟩⟩ h1 h2 hS hpi heps
    obtain rfl : z1 = 0 := h1
    obtain rfl : z2 = 0 := h2
    simp only [LineR.exp, Motor.log]
    rw [logK_expK_line_gen a1 a2 a3 b1 b2 b3 hS hpi heps]

/-- C3 witness: the amended round trips applied to the normalized motor
`(3/5) + (4/5)e₂₃ + (4/5)e₀₁₂₃ + (3/5)e₀₁` and to the line
`(π/3)e₂₃`. -/
theorem C3_exp_log_roundtrip_witness :
    gpMM ⟨⟨3 / 5, 4 / 5, 0, 0⟩, ⟨4 / 5, 3 / 5, 0, 0⟩⟩
        (Motor.reversed ⟨⟨3 / 5, 4 / 5, 0, 0⟩, ⟨4 / 5, 3 / 5, 0, 0⟩⟩) = Motor.one ∧
    (Motor.log ⟨⟨3 / 5, 4 / 5, 0, 0⟩, ⟨4 / 5, 3 / 5, 0, 0⟩⟩).exp =
      ⟨⟨3 / 5, 4 / 5, 0, 0⟩, ⟨4 / 5, 3 / 5, 0, 0⟩⟩ ∧
    (LineR.exp ⟨⟨0, Real.pi / 3, 0, 0⟩, ⟨0, 0, 0, 0⟩⟩).log =
      ⟨⟨0, Real.pi / 3, 0, 0⟩, ⟨0, 0, 0, 0⟩⟩ := by
  have hnorm : gpMM ⟨⟨3 / 5, 4 / 5, 0, 0⟩, ⟨4 / 5, 3 / 5, 0, 0⟩⟩
      (Motor.reversed ⟨⟨3 / 5, 4 / 5, 0, 0⟩, ⟨4 / 5, 3 / 5, 0, 0⟩⟩) = Motor.one := by
    simp only [gpMM, Motor.reversed, Motor.one, R4.mul, R4.add, R4.sub,
      R4.flip0, R4.flipHi, Motor.mk.injEq, R4.mk.injEq]
    norm_num
  have hsq : Real.sqrt (Real.pi / 3 * (Real.pi / 3) + 0 * 0 + 0 * 0) = Real.pi / 3 := by
    rw [show Real.pi / 3 * (Real.pi / 3) + 0 * 0 + 0 * 0 =
      Real.pi / 3 * (Real.pi / 3) by ring]
    exact Real.sqrt_mul_self (by positivity)
  refine ⟨hnorm, ?_, ?_⟩
  · exact C3_exp_log_roundtrip.1 _ hnorm
      (by rw [show (⟨⟨3 / 5, 4 / 5, 0, 0⟩, ⟨4 / 5, 3 / 5, 0, 0⟩⟩ : Motor).p1.l0 =
        3 / 5 from rfl, logEps]; rw [abs_of_nonneg (by norm_num)]; norm_num)
      (by norm_num) (by norm_num)
  · exact C3_exp_log_roundtrip.2 _ rfl rfl
      (by show (0 : ℝ) < Real.pi / 3 * (Real.pi / 3) + 0 * 0 + 0 * 0
          positivity)
      (by show Real.sqrt (Real.pi / 3 * (Real.pi / 3) + 0 * 0 + 0 * 0) < Real.pi
          rw [hsq]
          linarith [Real.pi_pos])
      (by show logEps ≤
            |Real.cos (Real.sqrt (Real.pi / 3 * (Real.pi / 3) + 0 * 0 + 0 * 0))|
          rw [hsq, Real.cos_pi_div_three, logEps, abs_of_nonneg (by norm_num)]
          norm_num)

/-- C9 counterexample.  The claim states the exact-equality operator is
bit-pattern equality, under which `+0.0` and `-0.0` compare unequal.
But `_mm_cmpeq_ps` is the IEEE numeric comparison: two planes whose
lane 0 differs only as `+0.0` versus `-0.0` (distinct bit patterns)
compare EQUAL. -/
theorem C9_plane_eq_counterexample :
    PlaneF.plane_eq ⟨⟨F32.pz, F32.pz, F32.pz, F32.pz⟩⟩
        ⟨⟨F32.mz, F32.pz, F32.pz, F32.pz⟩⟩ = true ∧
    (⟨⟨F32.pz, F32.pz, F32.pz, F32.pz⟩⟩ : PlaneF) ≠
        ⟨⟨F32.mz, F32.pz, F32.pz, F32.pz⟩⟩ := by
  constructor
  · simp [PlaneF.plane_eq, F32x4.bit_eq, F32.cmpeq, F32.toVal, F32.pz, F32.mz]
  · simp [PlaneF.mk.injEq, F32x4.mk.injEq, F32.pz, F32.mz, F32.mk.injEq]

/-- C9 amended.  The exact-equality operators on planes, lines, motors and
raw `f32x4` values return `true` iff every lane pair compares equal
under the IEEE numeric comparison: both lanes non-NaN with equal signed
values (so `+0.0 = -0.0`, and NaN lanes never compare equal, even with
identical bit patterns). -/
theorem C9_exact_eq_is_numeric_eq :
    (∀ a b : F32x4, a.bit_eq b = true ↔
      (F32.numEq a.l0 b.l0 ∧ F32.numEq a.l1 b.l1 ∧
        F32.numEq a.l2 b.l2 ∧ F32.numEq a.l3 b.l3)) ∧
    (∀ a b : PlaneF, a.plane_eq b = true ↔
      (F32.numEq a.p0.l0 b.p0.l0 ∧ F32.numEq a.p0.l1 b.p0.l1 ∧
        F32.numEq a.p0.l2 b.p0.l2 ∧ F32.numEq a.p0.l3 b.p0.l3)) ∧
    (∀ a b : LineF, a.line_eq b = true ↔
      ((F32.numEq a.p1.l0 b.p1.l0 ∧ F32.numEq a.p1.l1 b.p1.l1 ∧
        F32.numEq a.p1.l2 b.p1.l2 ∧ F32.numEq a.p1.l3 b.p1.l3) ∧
       (F32.numEq a.p2.l0 b.p2.l0 ∧ F32.numEq a.p2.l1 b.p2.l1 ∧
        F32.numEq a.p2.l2 b.p2.l2 ∧ F32.numEq a.p2.l3 b.p2.l3))) ∧
    (∀ a b : MotorF, a.motor_eq b = true ↔
      ((F32.numEq a.p1.l0 b.p1.l0 ∧ F32.numEq a.p1.l1 b.p1.l1 ∧
        F32.numEq a.p1.l2 b.p1.l2 ∧ F32.numEq a.p1.l3 b.p1.l3) ∧
       (F32.numEq a.p2.l0 b.p2.l0 ∧ F32.numEq a.p2.l1 b.p2.l1 ∧
        F32.numEq a.p2.l2 b.p2.l2 ∧ F32.numEq a.p2.l3 b.p2.l3))) := by
  refine ⟨fun a b => ?_, fun a b => ?_, fun a b => ?_, fun a b => ?_⟩ <;>
    simp only [F32x4.bit_eq, PlaneF.plane_eq, LineF.line_eq, MotorF.motor_eq,
      F32.cmpeq, F32.numEq, Bool.and_eq_true, Bool.not_eq_true',
      decide_eq_true_eq] <;>
    tauto

end Klein
